import Mathlib

/-!
Verification of the sharded concurrent hash map `HashMap5` from
`src/main/cpp/hashmap/HashMap5.h` (with the `ConcurrentMap` concept from
`src/main/cpp/hashmap/ConcurrentMap.h`).

A shard (`HashMap5::Slot`) owns a `std::pmr::unordered_map<K, V>`; we embed the
table as an association list of key/value pairs and each `Slot` member function
as a pure function on that list.  Callback-invocation behaviour (how often a
caller-supplied function is invoked and with which arguments) is made
observable by having the embedded operation additionally return the invocation
count / argument list, built in exactly the branches in which the C++ source
performs the invocation.  The map facade is embedded as a shard-count, a hash
function and a family of shard states, with the routing (`slotFor`) and the
splitmix64-style finalizer translated literally, with `% 2^64` where the C++
`size_t` arithmetic wraps.
-/

namespace HashMap5V

/-- One shard's backing table: the contents of the
`std::pmr::unordered_map<K, V>` as an association list. -/
abbrev Table (K V : Type) := List (K × V)

namespace Slot

variable {K V R : Type} [DecidableEq K]

/-- `map.find(key)`: the first binding of `key` in the table, if any. -/
def find? : Table K V → K → Option V
  | [], _ => none
  | (k', v) :: rest, k => if k' = k then some v else find? rest k

/-- The keys of a table, in order. -/
def keys (m : Table K V) : List K := m.map Prod.fst

/-- `it->second = x` on the entry found for `key`: replace the value of the
first binding of `key`. -/
def replaceValue : Table K V → K → V → Table K V
  | [], _, _ => []
  | (k', v') :: rest, k, v =>
      if k' = k then (k', v) :: rest else (k', v') :: replaceValue rest k v

/-- `map.erase(it)` for the iterator found for `key`: drop the first binding
of `key`. -/
def eraseKey : Table K V → K → Table K V
  | [], _ => []
  | (k', v') :: rest, k => if k' = k then rest else (k', v') :: eraseKey rest k

/-- `map.emplace(key, value)` when `key` is known to be absent: append the new
binding. -/
def emplaceNew (m : Table K V) (k : K) (v : V) : Table K V := m ++ [(k, v)]

/-- `Slot::get` (HashMap5.h lines 233–239): look the key up and return a copy
of the stored value, or an empty optional. -/
def get (m : Table K V) (k : K) : Option V :=
  match find? m k with
  | some v => some v
  | none => none

/-- `Slot::contains` (HashMap5.h lines 439–442). -/
def contains (m : Table K V) (k : K) : Bool := (find? m k).isSome

/-- `Slot::add` (HashMap5.h lines 397–410): if the key is present, move the
old value out, overwrite with the new value and return the old value;
otherwise emplace the new binding and return an empty optional.  Returns
(result, new table). -/
def add (m : Table K V) (k : K) (v : V) : Option V × Table K V :=
  match find? m k with
  | some old => (some old, replaceValue m k v)
  | none => (none, emplaceNew m k v)

/-- `Slot::tryAdd` (HashMap5.h lines 412–418): `map.emplace` inserts only when
the key was not known; return whether insertion occurred.  Returns
(inserted, new table). -/
def tryAdd (m : Table K V) (k : K) (v : V) : Bool × Table K V :=
  match find? m k with
  | some _ => (false, m)
  | none => (true, emplaceNew m k v)

/-- `Slot::remove` (HashMap5.h lines 376–384): if present, move the old value
out, erase the entry and return the old value; else return an empty optional.
Returns (result, new table). -/
def remove (m : Table K V) (k : K) : Option V × Table K V :=
  match find? m k with
  | some old => (some old, eraseKey m k)
  | none => (none, m)

/-- `Slot::removeIf` (HashMap5.h lines 386–395): `std::erase_if` removes every
entry satisfying the predicate and returns how many were removed.  Returns
(count, new table). -/
def removeIf : Table K V → (K → V → Bool) → Nat × Table K V
  | [], _ => (0, [])
  | (k, v) :: rest, p =>
      let r := removeIf rest p
      if p k v then (r.1 + 1, r.2) else (r.1, (k, v) :: r.2)

/-- `Slot::merge` (HashMap5.h lines 355–374): if the key is present, invoke
the remapping function on the current and the new value; a present result
replaces the stored value, an empty result erases the entry.  If the key is
absent, emplace the new value directly.  The second component counts how often
the remapping function was invoked (it is invoked exactly in the branch where
the C++ source invokes it). -/
def merge (m : Table K V) (k : K) (v : V) (f : V → V → Option V) :
    Table K V × Nat :=
  match find? m k with
  | some cur =>
      match f cur v with
      | some r => (replaceValue m k r, 1)
      | none => (eraseKey m k, 1)
  | none => (emplaceNew m k v, 0)

/-- `Slot::computeIfAbsent` (HashMap5.h lines 325–339): when the key is
absent, emplace `create ()`; then always invoke the access callback on the
current (pre-existing or newly created) stored value, which it may mutate in
place.  Result: (new table, number of `create` invocations, list of values the
access callback was invoked on), each built in exactly the branch where the
C++ source performs the corresponding action. -/
def computeIfAbsent (m : Table K V) (k : K) (create : Unit → V)
    (access : V → V) : Table K V × Nat × List V :=
  match find? m k with
  | some cur => (replaceValue m k (access cur), 0, [cur])
  | none =>
      let v := create ()
      (emplaceNew m k (access v), 1, [v])

/-- `Slot::computeIfAbsent2` (HashMap5.h lines 341–353): when the key is
absent, emplace `create ()` and return the newly stored value; otherwise
return the existing stored value.  Both `return` statements return a plain
`V` converted into the `std::optional<V>` return type, hence both produce a
populated optional.  Result: (returned optional, new table, number of
`create` invocations). -/
def computeIfAbsent2 (m : Table K V) (k : K) (create : Unit → V) :
    Option V × Table K V × Nat :=
  match find? m k with
  | some cur => (some cur, m, 0)
  | none =>
      let v := create ()
      (some v, emplaceNew m k v, 1)

/-- `Slot::inspect` (HashMap5.h lines 254–263): invoke the callback on the
stored value if the key is present; return whether the key existed.  The
second component records the arguments the callback was invoked on. -/
def inspect (m : Table K V) (k : K) : Bool × List V :=
  match find? m k with
  | some v => (true, [v])
  | none => (false, [])

/-- `Slot::inspect2`, case 1 (HashMap5.h lines 296–304): the instantiation of
the template for a callback whose return type is `void`.  Invoke the callback
on the stored value if the key is present and return whether it existed; the
second component records the arguments the callback was invoked on. -/
def inspect2Void (m : Table K V) (k : K) : Bool × List V :=
  match find? m k with
  | some v => (true, [v])
  | none => (false, [])

/-- `Slot::inspect2`, case 2 (HashMap5.h lines 305–322): the instantiation of
the template for a callback returning a plain `R` (not a `std::optional`).
If the key is present the callback's result is wrapped in one optional layer;
if absent, an empty `optional<R>` is returned. -/
def inspect2Plain (m : Table K V) (k : K) (f : V → R) : Option R :=
  match find? m k with
  | some v => some (f v)
  | none => none

/-- `Slot::inspect2`, case 3 (HashMap5.h lines 305–322): the instantiation of
the template for a callback returning `std::optional<R>`.  If the key is
present the callback's result is returned 1:1; if absent, an empty
`optional<R>` (of the unwrapped element type `R`) is returned. -/
def inspect2Opt (m : Table K V) (k : K) (f : V → Option R) : Option R :=
  match find? m k with
  | some v => f v
  | none => none

/-- `Slot::size` (HashMap5.h lines 460–463). -/
def size (m : Table K V) : Nat := m.length

end Slot

/-- `HashMap5::finalize` (HashMap5.h lines 500–505): two rounds of
xor-shift-multiply with the splitmix64 constants, then a final xor-shift.
The multiplications wrap in 64-bit `size_t` arithmetic, hence `% 2 ^ 64`. -/
def finalize (h : Nat) : Nat :=
  let h1 := (h ^^^ (h >>> 30)) * 0xbf58476d1ce4e5b9 % 2 ^ 64
  let h2 := (h1 ^^^ (h1 >>> 27)) * 0x94d049bb133111eb % 2 ^ 64
  h2 ^^^ (h2 >>> 31)

/-- `HashMap5::SIZE_IS_POW2` (HashMap5.h line 507):
`SLOT_SIZE && ((SLOT_SIZE & (SLOT_SIZE - 1)) == 0)`. -/
def sizeIsPow2 (n : Nat) : Bool := n != 0 && (n &&& (n - 1)) == 0

/-- The map facade: a fixed shard count `SLOT_SIZE` (positive, per the
`static_assert`), the key-hashing function `std::hash<K>`, and the array of
shard states (`slots i` for `i < slotSize`; larger indices are never
accessed). -/
structure Map (K V : Type) where
  slotSize : Nat
  slotSizePos : 0 < slotSize
  hash : K → Nat
  slots : Nat → Table K V

namespace Map

variable {K V R : Type} [DecidableEq K]

/-- The shard index computed by `HashMap5::slotFor` (HashMap5.h lines
482–498): mask with `SLOT_SIZE - 1` when the shard count is a power of two,
otherwise reduce modulo `SLOT_SIZE`. -/
def slotIndex (m : Map K V) (k : K) : Nat :=
  if sizeIsPow2 m.slotSize then finalize (m.hash k) &&& (m.slotSize - 1)
  else finalize (m.hash k) % m.slotSize

/-- Replace shard `i`'s table. -/
def setSlot (m : Map K V) (i : Nat) (t : Table K V) : Map K V :=
  { m with slots := Function.update m.slots i t }

/-- `HashMap5::get`: delegate to the key's shard. -/
def get (m : Map K V) (k : K) : Option V := Slot.get (m.slots (m.slotIndex k)) k

/-- `HashMap5::contains`: delegate to the key's shard. -/
def contains (m : Map K V) (k : K) : Bool :=
  Slot.contains (m.slots (m.slotIndex k)) k

/-- `HashMap5::add`: delegate to the key's shard. -/
def add (m : Map K V) (k : K) (v : V) : Option V × Map K V :=
  let r := Slot.add (m.slots (m.slotIndex k)) k v
  (r.1, m.setSlot (m.slotIndex k) r.2)

/-- `HashMap5::tryAdd`: delegate to the key's shard. -/
def tryAdd (m : Map K V) (k : K) (v : V) : Bool × Map K V :=
  let r := Slot.tryAdd (m.slots (m.slotIndex k)) k v
  (r.1, m.setSlot (m.slotIndex k) r.2)

/-- `HashMap5::remove`: delegate to the key's shard. -/
def remove (m : Map K V) (k : K) : Option V × Map K V :=
  let r := Slot.remove (m.slots (m.slotIndex k)) k
  (r.1, m.setSlot (m.slotIndex k) r.2)

/-- `HashMap5::merge`: delegate to the key's shard; the second component
counts remapping-function invocations. -/
def merge (m : Map K V) (k : K) (v : V) (f : V → V → Option V) :
    Map K V × Nat :=
  let r := Slot.merge (m.slots (m.slotIndex k)) k v f
  (m.setSlot (m.slotIndex k) r.1, r.2)

/-- `HashMap5::size` (HashMap5.h lines 205–211): the sum of the shard sizes,
visiting shards in index order. -/
def size (m : Map K V) : Nat :=
  ((List.range m.slotSize).map fun i => Slot.size (m.slots i)).sum

/-- `HashMap5::removeIf` (HashMap5.h lines 130–138): visit the shards in index
order, invoking `Slot::removeIf` on each and summing the per-shard removal
counts. -/
def removeIf (m : Map K V) (p : K → V → Bool) : Nat × Map K V :=
  (List.range m.slotSize).foldl
    (fun acc i =>
      let r := Slot.removeIf (acc.2.slots i) p
      (acc.1 + r.1, acc.2.setSlot i r.2))
    (0, m)

/-- Well-formedness of a map state: every shard's table binds each key at most
once — the `unordered_map` uniqueness invariant ("within a single shard, keys
are unique"). -/
def WF {K V : Type} (m : Map K V) : Prop :=
  ∀ i, (Slot.keys (m.slots i)).Nodup

end Map

section SlotLemmas

variable {K V R : Type} [DecidableEq K]

theorem Slot.find?_eq_none_of_not_mem {m : Table K V} {k : K}
    (h : k ∉ Slot.keys m) : Slot.find? m k = none := by
  induction m with
  | nil => rfl
  | cons hd tl ih =>
    obtain ⟨k', v'⟩ := hd
    simp only [Slot.keys, List.map_cons, List.mem_cons] at h
    push_neg at h
    simp only [Slot.find?, if_neg (Ne.symm h.1)]
    exact ih h.2

theorem Slot.find?_replaceValue_found {m : Table K V} {k : K} {old : V}
    (h : Slot.find? m k = some old) (v : V) :
    Slot.find? (Slot.replaceValue m k v) k = some v := by
  induction m with
  | nil => simp [Slot.find?] at h
  | cons hd tl ih =>
    obtain ⟨k', v'⟩ := hd
    by_cases hk : k' = k
    · simp [Slot.replaceValue, Slot.find?, hk]
    · simp only [Slot.find?, if_neg hk] at h
      simp only [Slot.replaceValue, if_neg hk, Slot.find?]
      exact ih h

theorem Slot.find?_emplaceNew_none {m : Table K V} {k : K}
    (h : Slot.find? m k = none) (v : V) :
    Slot.find? (Slot.emplaceNew m k v) k = some v := by
  induction m with
  | nil => simp [Slot.emplaceNew, Slot.find?]
  | cons hd tl ih =>
    obtain ⟨k', v'⟩ := hd
    by_cases hk : k' = k
    · simp [Slot.find?, hk] at h
    · simp only [Slot.find?, if_neg hk] at h
      simp only [Slot.emplaceNew, List.cons_append, Slot.find?, if_neg hk]
      exact ih h

theorem Slot.find?_eraseKey_self {m : Table K V} {k : K}
    (h : (Slot.keys m).Nodup) : Slot.find? (Slot.eraseKey m k) k = none := by
  induction m with
  | nil => rfl
  | cons hd tl ih =>
    obtain ⟨k', v'⟩ := hd
    simp only [Slot.keys, List.map_cons, List.nodup_cons] at h
    by_cases hk : k' = k
    · subst hk
      simp only [Slot.eraseKey, if_pos rfl]
      exact Slot.find?_eq_none_of_not_mem h.1
    · simp only [Slot.eraseKey, if_neg hk, Slot.find?]
      exact ih h.2

theorem Slot.add_of_none {m : Table K V} {k : K}
    (h : Slot.find? m k = none) (v : V) :
    Slot.add m k v = (none, Slot.emplaceNew m k v) := by
  simp [Slot.add, h]

theorem Slot.add_of_found {m : Table K V} {k : K} {w : V}
    (h : Slot.find? m k = some w) (v : V) :
    Slot.add m k v = (some w, Slot.replaceValue m k v) := by
  simp [Slot.add, h]

theorem Slot.tryAdd_of_none {m : Table K V} {k : K}
    (h : Slot.find? m k = none) (v : V) :
    Slot.tryAdd m k v = (true, Slot.emplaceNew m k v) := by
  simp [Slot.tryAdd, h]

theorem Slot.tryAdd_of_found {m : Table K V} {k : K} {w : V}
    (h : Slot.find? m k = some w) (v : V) :
    Slot.tryAdd m k v = (false, m) := by
  simp [Slot.tryAdd, h]

end SlotLemmas

section Pow2

/-- A nonzero number `n` with `n &&& (n - 1) = 0` is a power of two: the
`SIZE_IS_POW2` compile-time test is sound. -/
theorem exists_pow_of_and_pred :
    ∀ n : Nat, n ≠ 0 → n &&& (n - 1) = 0 → ∃ i, n = 2 ^ i := by
  intro n
  induction n using Nat.strong_induction_on with
  | _ n ih =>
    intro h0 h
    rcases Nat.even_or_odd n with he | ho
    · obtain ⟨m, hm⟩ := he
      have hm2 : n = 2 * m := by omega
      have hmne : m ≠ 0 := by omega
      have hstep : m &&& (m - 1) = 0 := by
        apply Nat.eq_of_testBit_eq
        intro j
        rw [Nat.zero_testBit, Nat.testBit_and]
        have h1 : m.testBit j = n.testBit (j + 1) := by
          rw [Nat.testBit_add_one, hm2, Nat.mul_div_cancel_left m (by omega)]
        have h2 : (m - 1).testBit j = (n - 1).testBit (j + 1) := by
          rw [Nat.testBit_add_one]
          congr 1
          omega
        rw [h1, h2, ← Nat.testBit_and, h, Nat.zero_testBit]
      obtain ⟨i, hi⟩ := ih m (by omega) hmne hstep
      exact ⟨i + 1, by rw [hm2, hi, Nat.pow_succ, Nat.mul_comm]⟩
    · by_cases h1 : n = 1
      · exact ⟨0, by simpa using h1⟩
      · exfalso
        have hge : n / 2 ≠ 0 := by omega
        obtain ⟨j, hj⟩ := Nat.ne_zero_implies_bit_true hge
        have hbn : n.testBit (j + 1) = true := by
          rw [Nat.testBit_add_one]; exact hj
        have hbn1 : (n - 1).testBit (j + 1) = true := by
          rw [Nat.testBit_add_one]
          have : (n - 1) / 2 = n / 2 := by
            obtain ⟨q, hq⟩ := ho
            omega
          rw [this]; exact hj
        have : (n &&& (n - 1)).testBit (j + 1) = true := by
          rw [Nat.testBit_and, hbn, hbn1]; rfl
        rw [h, Nat.zero_testBit] at this
        exact absurd this (by simp)

end Pow2

section SlotClaims

variable {K V R : Type} [DecidableEq K]

theorem Slot.get_eq_find? (m : Table K V) (k : K) :
    Slot.get m k = Slot.find? m k := by
  cases h : Slot.find? m k <;> simp [Slot.get, h]

/-- C1: for every key `k` and callback passed to `inspect2`: if `k` is absent
the result is an empty optional of the unwrapped result type for either
callback flavor; if `k` is present and the callback returns a plain `R` the
result is that value wrapped in exactly one optional layer; if `k` is present
and the callback returns `optional<R>`, that optional is returned unchanged —
the result is never a doubly-nested optional (both flavors produce a
single-layer `Option R`). -/
theorem inspect2_flattening (s : Table K V) (k : K) (f : V → R)
    (g : V → Option R) :
    (Slot.find? s k = none →
      Slot.inspect2Plain s k f = none ∧ Slot.inspect2Opt s k g = none)
    ∧ ∀ v, Slot.find? s k = some v →
      Slot.inspect2Plain s k f = some (f v) ∧ Slot.inspect2Opt s k g = g v := by
  constructor
  · intro h
    simp [Slot.inspect2Plain, Slot.inspect2Opt, h]
  · intro v h
    simp [Slot.inspect2Plain, Slot.inspect2Opt, h]

/-- Witness for C1 at concrete inputs: table `[(2, 5)]` and the empty
table. -/
theorem inspect2_flattening_witness :
    Slot.inspect2Plain [((2 : Nat), (5 : Nat))] 2 (fun v => v + 1) = some 6
    ∧ Slot.inspect2Opt [((2 : Nat), (5 : Nat))] 2
        (fun _ => (none : Option Nat)) = none
    ∧ Slot.inspect2Plain ([] : Table Nat Nat) 2 (fun v => v + 1) = none
    ∧ Slot.inspect2Opt ([] : Table Nat Nat) 2 (fun v => some (v + 1)) = none :=
  ⟨((inspect2_flattening [((2 : Nat), (5 : Nat))] 2 (fun v => v + 1)
      (fun _ => (none : Option Nat))).2 5 (by decide)).1,
   ((inspect2_flattening [((2 : Nat), (5 : Nat))] 2 (fun v => v + 1)
      (fun _ => (none : Option Nat))).2 5 (by decide)).2,
   ((inspect2_flattening ([] : Table Nat Nat) 2 (fun v => v + 1)
      (fun v => some (v + 1))).1 (by decide)).1,
   ((inspect2_flattening ([] : Table Nat Nat) 2 (fun v => v + 1)
      (fun v => some (v + 1))).1 (by decide)).2⟩

/-- C6: in every single `computeIfAbsent(key, createFn, accessFn)` call,
`createFn` is invoked at most once and never when the key is present; if the
key was absent the value produced by `createFn` is inserted (and then handed
to `accessFn`, which may mutate it in place); `accessFn` is always invoked
exactly once, on the pre-existing value when present and on the freshly
created value otherwise. -/
theorem computeIfAbsent_spec (s : Table K V) (k : K) (create : Unit → V)
    (access : V → V) :
    (Slot.computeIfAbsent s k create access).2.1 ≤ 1
    ∧ (Slot.contains s k = true →
        (Slot.computeIfAbsent s k create access).2.1 = 0)
    ∧ (Slot.find? s k = none →
        (Slot.computeIfAbsent s k create access).2.1 = 1
        ∧ Slot.find? (Slot.computeIfAbsent s k create access).1 k
            = some (access (create ()))
        ∧ (Slot.computeIfAbsent s k create access).2.2 = [create ()])
    ∧ (∀ cur, Slot.find? s k = some cur →
        (Slot.computeIfAbsent s k create access).2.2 = [cur])
    ∧ ((Slot.computeIfAbsent s k create access).2.2).length = 1 := by
  cases h : Slot.find? s k with
  | none =>
      simp [Slot.computeIfAbsent, Slot.contains, h,
            Slot.find?_emplaceNew_none h]
  | some cur =>
      simp [Slot.computeIfAbsent, Slot.contains, h]

/-- Witness for C6 at concrete inputs: an absent key on the empty table and a
present key on `[(1, 7)]`. -/
theorem computeIfAbsent_spec_witness :
    (Slot.computeIfAbsent ([] : Table Nat Nat) 1 (fun _ => 9) (fun v => v)).2.1
        = 1
    ∧ Slot.find?
        (Slot.computeIfAbsent ([] : Table Nat Nat) 1 (fun _ => 9)
          (fun v => v)).1 1 = some 9
    ∧ (Slot.computeIfAbsent [((1 : Nat), (7 : Nat))] 1 (fun _ => 9)
        (fun v => v)).2.1 = 0
    ∧ (Slot.computeIfAbsent [((1 : Nat), (7 : Nat))] 1 (fun _ => 9)
        (fun v => v)).2.2 = [7] :=
  ⟨((computeIfAbsent_spec ([] : Table Nat Nat) 1 (fun _ => 9)
      (fun v => v)).2.2.1 (by decide)).1,
   ((computeIfAbsent_spec ([] : Table Nat Nat) 1 (fun _ => 9)
      (fun v => v)).2.2.1 (by decide)).2.1,
   (computeIfAbsent_spec [((1 : Nat), (7 : Nat))] 1 (fun _ => 9)
      (fun v => v)).2.1 (by decide),
   (computeIfAbsent_spec [((1 : Nat), (7 : Nat))] 1 (fun _ => 9)
      (fun v => v)).2.2.2.1 7 (by decide)⟩

/-- C7: `computeIfAbsent2(key, createFn)`: if the key was absent, `createFn`
is invoked exactly once, the produced value is inserted and returned; if the
key was present, `createFn` is not invoked and the already-stored value is
returned with the table unchanged.  The returned optional is always populated
and always equals the value now stored for the key. -/
theorem computeIfAbsent2_spec (s : Table K V) (k : K) (create : Unit → V) :
    (Slot.find? s k = none →
        (Slot.computeIfAbsent2 s k create).2.2 = 1
        ∧ (Slot.computeIfAbsent2 s k create).1 = some (create ())
        ∧ Slot.find? (Slot.computeIfAbsent2 s k create).2.1 k
            = some (create ()))
    ∧ (∀ cur, Slot.find? s k = some cur →
        (Slot.computeIfAbsent2 s k create).2.2 = 0
        ∧ (Slot.computeIfAbsent2 s k create).1 = some cur
        ∧ (Slot.computeIfAbsent2 s k create).2.1 = s)
    ∧ ((Slot.computeIfAbsent2 s k create).1).isSome = true
    ∧ (Slot.computeIfAbsent2 s k create).1
        = Slot.find? (Slot.computeIfAbsent2 s k create).2.1 k := by
  cases h : Slot.find? s k with
  | none =>
      simp [Slot.computeIfAbsent2, h, Slot.find?_emplaceNew_none h]
  | some cur =>
      simp [Slot.computeIfAbsent2, h]

/-- Witness for C7 at concrete inputs: an absent key on the empty table and a
present key on `[(1, 7)]`. -/
theorem computeIfAbsent2_spec_witness :
    (Slot.computeIfAbsent2 ([] : Table Nat Nat) 1 (fun _ => 9)).1 = some 9
    ∧ (Slot.computeIfAbsent2 ([] : Table Nat Nat) 1 (fun _ => 9)).2.2 = 1
    ∧ (Slot.computeIfAbsent2 [((1 : Nat), (7 : Nat))] 1 (fun _ => 9)).1
        = some 7
    ∧ (Slot.computeIfAbsent2 [((1 : Nat), (7 : Nat))] 1 (fun _ => 9)).2.2
        = 0 :=
  ⟨((computeIfAbsent2_spec ([] : Table Nat Nat) 1 (fun _ => 9)).1
      (by decide)).2.1,
   ((computeIfAbsent2_spec ([] : Table Nat Nat) 1 (fun _ => 9)).1
      (by decide)).1,
   ((computeIfAbsent2_spec [((1 : Nat), (7 : Nat))] 1 (fun _ => 9)).2.1 7
      (by decide)).2.1,
   ((computeIfAbsent2_spec [((1 : Nat), (7 : Nat))] 1 (fun _ => 9)).2.1 7
      (by decide)).1⟩

/-- C10: the `void`-returning instantiation of `inspect2` does not produce an
optional: it coincides with `inspect`, invoking the callback on the stored
value exactly when the key is present and returning the bool that reports
whether the key existed. -/
theorem inspect2_void_eq_inspect (s : Table K V) (k : K) :
    Slot.inspect2Void s k = Slot.inspect s k
    ∧ (Slot.inspect2Void s k).1 = Slot.contains s k
    ∧ (∀ v, Slot.find? s k = some v → Slot.inspect2Void s k = (true, [v]))
    ∧ (Slot.find? s k = none → Slot.inspect2Void s k = (false, [])) := by
  refine ⟨rfl, ?_, ?_, ?_⟩
  · cases h : Slot.find? s k <;> simp [Slot.inspect2Void, Slot.contains, h]
  · intro v h
    simp [Slot.inspect2Void, h]
  · intro h
    simp [Slot.inspect2Void, h]

/-- Witness for C10 at concrete inputs: present key on `[(2, 5)]` and absent
key on the empty table. -/
theorem inspect2_void_eq_inspect_witness :
    Slot.inspect2Void [((2 : Nat), (5 : Nat))] 2 = (true, [5])
    ∧ Slot.inspect2Void ([] : Table Nat Nat) 2 = (false, []) :=
  ⟨(inspect2_void_eq_inspect [((2 : Nat), (5 : Nat))] 2).2.2.1 5 (by decide),
   (inspect2_void_eq_inspect ([] : Table Nat Nat) 2).2.2.2 (by decide)⟩

end SlotClaims

section MapClaims

variable {K V : Type} [DecidableEq K]

omit [DecidableEq K] in
/-- Updating the routed shard and reading it back: `setSlot` changes neither
`slotSize` nor `hash`, so the routed index is unchanged, and
`Function.update` returns the new table at that index. -/
theorem Map.slots_setSlot_self (m : Map K V) (k : K) (t : Table K V) :
    (m.setSlot (m.slotIndex k) t).slots
      ((m.setSlot (m.slotIndex k) t).slotIndex k) = t := by
  have h : (m.setSlot (m.slotIndex k) t).slotIndex k = m.slotIndex k := rfl
  rw [h]
  simp [Map.setSlot, Function.update_same]

/-- C2: for every well-formed map state, key `k` and value `v`: after
`add(k, v)`, `get(k)` returns an optional containing `v`; after `remove(k)`,
`get(k)` returns an empty optional. -/
theorem round_trip (m : Map K V) (hwf : m.WF) (k : K) (v : V) :
    Map.get (Map.add m k v).2 k = some v
    ∧ Map.get (Map.remove m k).2 k = none := by
  constructor
  · simp only [Map.get, Map.add]
    rw [Map.slots_setSlot_self]
    cases h : Slot.find? (m.slots (m.slotIndex k)) k with
    | none =>
        simp [Slot.add, h, Slot.get_eq_find?, Slot.find?_emplaceNew_none h]
    | some old =>
        simp [Slot.add, h, Slot.get_eq_find?, Slot.find?_replaceValue_found h]
  · simp only [Map.get, Map.remove]
    rw [Map.slots_setSlot_self]
    cases h : Slot.find? (m.slots (m.slotIndex k)) k with
    | none => simp [Slot.remove, h, Slot.get_eq_find?]
    | some old =>
        simp [Slot.remove, h, Slot.get_eq_find?,
              Slot.find?_eraseKey_self (hwf (m.slotIndex k))]

/-- Witness for C2 on the concrete empty map with 4 shards and identity
hashing. -/
theorem round_trip_witness :
    Map.get (Map.add ⟨4, by decide, id, fun _ => []⟩ 3 (10 : Nat)).2 3
        = some 10
    ∧ Map.get (Map.remove (⟨4, by decide, id, fun _ => []⟩ : Map Nat Nat)
        3).2 3 = none :=
  round_trip ⟨4, by decide, id, fun _ => []⟩
    (fun _ => List.nodup_nil) 3 10

/-- C3: `add` has upsert semantics: on an absent key, `add(k, v1)` inserts
`v1` and returns an empty optional, and a subsequent `add(k, v2)` returns
`v1`; on a key mapped to `w`, `add(k, v2)` replaces the stored value with
`v2` and returns an optional containing `w`. -/
theorem add_upsert (m : Map K V) (k : K) (v1 v2 : V) :
    (Map.get m k = none →
        (Map.add m k v1).1 = none
        ∧ Map.get (Map.add m k v1).2 k = some v1
        ∧ (Map.add (Map.add m k v1).2 k v2).1 = some v1)
    ∧ (∀ w, Map.get m k = some w →
        (Map.add m k v2).1 = some w
        ∧ Map.get (Map.add m k v2).2 k = some v2) := by
  constructor
  · intro hnone
    rw [Map.get, Slot.get_eq_find?] at hnone
    have hfind : Slot.find? (Slot.add (m.slots (m.slotIndex k)) k v1).2 k
        = some v1 := by
      simp [Slot.add, hnone, Slot.find?_emplaceNew_none hnone]
    refine ⟨?_, ?_, ?_⟩
    · simp [Map.add, Slot.add, hnone]
    · simp only [Map.get, Map.add]
      rw [Map.slots_setSlot_self, Slot.get_eq_find?]
      exact hfind
    · simp only [Map.add]
      rw [Map.slots_setSlot_self]
      simp [Slot.add_of_none hnone,
            Slot.add_of_found (Slot.find?_emplaceNew_none hnone v1)]
  · intro w hsome
    rw [Map.get, Slot.get_eq_find?] at hsome
    refine ⟨?_, ?_⟩
    · simp [Map.add, Slot.add, hsome]
    · simp only [Map.get, Map.add]
      rw [Map.slots_setSlot_self, Slot.get_eq_find?]
      simp [Slot.add, hsome, Slot.find?_replaceValue_found hsome]

/-- Witness for C3 on the concrete empty map with 4 shards and identity
hashing: first `add` returns empty, second returns the first value, and the
replaced value is observable through `get`. -/
theorem add_upsert_witness :
    (Map.add (⟨4, by decide, id, fun _ => []⟩ : Map Nat Nat) 3 10).1 = none
    ∧ Map.get (Map.add (⟨4, by decide, id, fun _ => []⟩ : Map Nat Nat)
        3 10).2 3 = some 10
    ∧ (Map.add (Map.add (⟨4, by decide, id, fun _ => []⟩ : Map Nat Nat)
        3 10).2 3 11).1 = some 10 :=
  (add_upsert (⟨4, by decide, id, fun _ => []⟩ : Map Nat Nat) 3 10 11).1
    (by decide)

/-- C4: `tryAdd` inserts only when the key is absent: on an absent key,
`tryAdd(k, v1)` returns true and stores `v1`, and a second `tryAdd(k, v2)`
returns false and leaves `v1` stored; on a present key, `tryAdd(k, v2)`
returns false and leaves the map entirely unchanged. -/
theorem tryAdd_spec (m : Map K V) (k : K) (v1 v2 : V) :
    (Map.get m k = none →
        (Map.tryAdd m k v1).1 = true
        ∧ Map.get (Map.tryAdd m k v1).2 k = some v1
        ∧ (Map.tryAdd (Map.tryAdd m k v1).2 k v2).1 = false
        ∧ Map.get (Map.tryAdd (Map.tryAdd m k v1).2 k v2).2 k = some v1)
    ∧ (∀ w, Map.get m k = some w →
        (Map.tryAdd m k v2).1 = false ∧ (Map.tryAdd m k v2).2 = m) := by
  constructor
  · intro hnone
    rw [Map.get, Slot.get_eq_find?] at hnone
    have hfind : Slot.find? (Slot.tryAdd (m.slots (m.slotIndex k)) k v1).2 k
        = some v1 := by
      simp [Slot.tryAdd, hnone, Slot.find?_emplaceNew_none hnone]
    refine ⟨?_, ?_, ?_, ?_⟩
    · simp [Map.tryAdd, Slot.tryAdd, hnone]
    · simp only [Map.get, Map.tryAdd]
      rw [Map.slots_setSlot_self, Slot.get_eq_find?]
      exact hfind
    · simp only [Map.tryAdd]
      rw [Map.slots_setSlot_self]
      simp [Slot.tryAdd_of_none hnone,
            Slot.tryAdd_of_found (Slot.find?_emplaceNew_none hnone v1)]
    · simp only [Map.get, Map.tryAdd]
      rw [Map.slots_setSlot_self, Map.slots_setSlot_self, Slot.get_eq_find?]
      simp [Slot.tryAdd_of_none hnone,
            Slot.tryAdd_of_found (Slot.find?_emplaceNew_none hnone v1),
            Slot.find?_emplaceNew_none hnone]
  · intro w hsome
    rw [Map.get, Slot.get_eq_find?] at hsome
    have hslot : Slot.tryAdd (m.slots (m.slotIndex k)) k v2
        = (false, m.slots (m.slotIndex k)) := by
      simp [Slot.tryAdd, hsome]
    refine ⟨?_, ?_⟩
    · simp [Map.tryAdd, hslot]
    · simp [Map.tryAdd, hslot, Map.setSlot, Function.update_eq_self]

/-- Witness for C4 on the concrete empty map with 4 shards and identity
hashing. -/
theorem tryAdd_spec_witness :
    (Map.tryAdd (⟨4, by decide, id, fun _ => []⟩ : Map Nat Nat) 3 10).1 = true
    ∧ (Map.tryAdd (Map.tryAdd (⟨4, by decide, id, fun _ => []⟩ : Map Nat Nat)
        3 10).2 3 11).1 = false
    ∧ Map.get (Map.tryAdd
        (Map.tryAdd (⟨4, by decide, id, fun _ => []⟩ : Map Nat Nat)
          3 10).2 3 11).2 3 = some 10 :=
  ⟨((tryAdd_spec (⟨4, by decide, id, fun _ => []⟩ : Map Nat Nat) 3 10 11).1
      (by decide)).1,
   ((tryAdd_spec (⟨4, by decide, id, fun _ => []⟩ : Map Nat Nat) 3 10 11).1
      (by decide)).2.2.1,
   ((tryAdd_spec (⟨4, by decide, id, fun _ => []⟩ : Map Nat Nat) 3 10 11).1
      (by decide)).2.2.2⟩

/-- C5: `merge` follows the caller-supplied policy: on an absent key it
inserts the new value directly without invoking the remapping function; on a
present key the remapping function is invoked exactly once, a populated
result replaces the stored value (observable through `get`), and an empty
result deletes the entry (`contains` becomes false). -/
theorem merge_spec (m : Map K V) (hwf : m.WF) (k : K) (v : V)
    (f : V → V → Option V) :
    (Map.get m k = none →
        (Map.merge m k v f).2 = 0
        ∧ Map.get (Map.merge m k v f).1 k = some v)
    ∧ (∀ cur, Map.get m k = some cur →
        (Map.merge m k v f).2 = 1
        ∧ (∀ r, f cur v = some r → Map.get (Map.merge m k v f).1 k = some r)
        ∧ (f cur v = none → Map.contains (Map.merge m k v f).1 k = false)) := by
  constructor
  · intro hnone
    rw [Map.get, Slot.get_eq_find?] at hnone
    refine ⟨?_, ?_⟩
    · simp [Map.merge, Slot.merge, hnone]
    · simp only [Map.get, Map.merge]
      rw [Map.slots_setSlot_self, Slot.get_eq_find?]
      simp [Slot.merge, hnone, Slot.find?_emplaceNew_none hnone]
  · intro cur hsome
    rw [Map.get, Slot.get_eq_find?] at hsome
    refine ⟨?_, ?_, ?_⟩
    · cases hf : f cur v <;> simp [Map.merge, Slot.merge, hsome, hf]
    · intro r hf
      simp only [Map.get, Map.merge]
      rw [Map.slots_setSlot_self, Slot.get_eq_find?]
      simp [Slot.merge, hsome, hf, Slot.find?_replaceValue_found hsome]
    · intro hf
      simp only [Map.contains, Map.merge]
      rw [Map.slots_setSlot_self]
      simp [Slot.merge, hsome, hf, Slot.contains,
            Slot.find?_eraseKey_self (hwf (m.slotIndex k))]

/-- Witness for C5 on concrete maps with 4 shards and identity hashing: merge
on an absent key inserts without invoking the remapping function, and on a
present key a remapping function returning empty deletes the entry. -/
theorem merge_spec_witness :
    (Map.merge (⟨4, by decide, id, fun _ => []⟩ : Map Nat Nat) 3 10
        (fun _ _ => none)).2 = 0
    ∧ Map.get (Map.merge (⟨4, by decide, id, fun _ => []⟩ : Map Nat Nat) 3 10
        (fun _ _ => none)).1 3 = some 10
    ∧ (Map.merge (⟨4, by decide, id, fun _ => [(3, 10)]⟩ : Map Nat Nat) 3 11
        (fun _ _ => none)).2 = 1
    ∧ Map.contains (Map.merge
        (⟨4, by decide, id, fun _ => [(3, 10)]⟩ : Map Nat Nat) 3 11
        (fun _ _ => none)).1 3 = false := by
  have h1 := merge_spec (⟨4, by decide, id, fun _ => []⟩ : Map Nat Nat)
    (fun _ => List.nodup_nil) 3 10 (fun _ _ => none)
  have hwf : (⟨4, by decide, id, fun _ => [(3, 10)]⟩ : Map Nat Nat).WF := by
    intro i
    simp [Slot.keys]
  have h2 := merge_spec (⟨4, by decide, id, fun _ => [(3, 10)]⟩ : Map Nat Nat)
    hwf 3 11 (fun _ _ => none)
  exact ⟨(h1.1 (by decide)).1, (h1.1 (by decide)).2,
    (h2.2 10 (by decide)).1, (h2.2 10 (by decide)).2.2 rfl⟩

end MapClaims

section Scenario

/-- The empty map of the N=4 scenario: 4 shards, `std::hash<size_t>` taken as
the identity, all shards empty. -/
def scenarioEmpty : Map Nat Nat :=
  { slotSize := 4, slotSizePos := by decide, hash := id, slots := fun _ => [] }

/-- The scenario map after inserting the keys `{1, 2, 3, 4, 5}` (each mapped
to itself). -/
def scenarioFilled : Map Nat Nat :=
  [1, 2, 3, 4, 5].foldl (fun m k => (Map.add m k k).2) scenarioEmpty

/-- The scenario predicate `(k, v) -> k % 2 == 0`. -/
def scenarioEvenKey (k : Nat) (_v : Nat) : Bool := k % 2 == 0

/-- C8: with shard count N=4, after inserting the five keys `{1,2,3,4,5}`
into an empty map, `size()` returns 5; `removeIf((k,v) -> k % 2 == 0)`
removes exactly the entries with keys 2 and 4 and returns count 2; a final
`size()` returns 3; and the whole-map `removeIf` count equals the sum of the
per-shard removal counts. -/
theorem scenario_removeIf :
    Map.size scenarioFilled = 5
    ∧ (Map.removeIf scenarioFilled scenarioEvenKey).1 = 2
    ∧ Map.size (Map.removeIf scenarioFilled scenarioEvenKey).2 = 3
    ∧ Map.contains (Map.removeIf scenarioFilled scenarioEvenKey).2 1 = true
    ∧ Map.contains (Map.removeIf scenarioFilled scenarioEvenKey).2 2 = false
    ∧ Map.contains (Map.removeIf scenarioFilled scenarioEvenKey).2 3 = true
    ∧ Map.contains (Map.removeIf scenarioFilled scenarioEvenKey).2 4 = false
    ∧ Map.contains (Map.removeIf scenarioFilled scenarioEvenKey).2 5 = true
    ∧ (Map.removeIf scenarioFilled scenarioEvenKey).1
        = ((List.range 4).map fun i =>
            (Slot.removeIf (scenarioFilled.slots i) scenarioEvenKey).1).sum := by
  decide

end Scenario

section Routing

variable {K V : Type} [DecidableEq K]

/-- C9: key routing is deterministic and fixed: the shard index computed by
`slotFor` always equals `finalize(hash(k)) mod N`; when `N` is a power of two
it also equals `finalize(hash(k)) & (N - 1)`; equal keys are always routed to
the same shard; and `get` consults exactly the shard at
`finalize(hash(k)) mod N`. -/
theorem routing_deterministic (m : Map K V) (k k' : K) :
    Map.slotIndex m k = finalize (m.hash k) % m.slotSize
    ∧ ((∃ i, m.slotSize = 2 ^ i) →
        Map.slotIndex m k = finalize (m.hash k) &&& (m.slotSize - 1))
    ∧ (k = k' → Map.slotIndex m k = Map.slotIndex m k')
    ∧ Map.get m k
        = Slot.get (m.slots (finalize (m.hash k) % m.slotSize)) k := by
  have hmod : Map.slotIndex m k = finalize (m.hash k) % m.slotSize := by
    rw [Map.slotIndex]
    split
    · rename_i hp
      simp only [sizeIsPow2, Bool.and_eq_true, bne_iff_ne, beq_iff_eq] at hp
      obtain ⟨i, hi⟩ := exists_pow_of_and_pred m.slotSize hp.1 hp.2
      rw [hi, Nat.and_pow_two_sub_one_eq_mod]
    · rfl
  refine ⟨hmod, ?_, ?_, ?_⟩
  · rintro ⟨i, hi⟩
    have hp : sizeIsPow2 m.slotSize = true := by
      simp only [sizeIsPow2, Bool.and_eq_true, bne_iff_ne, beq_iff_eq]
      constructor
      · rw [hi]
        positivity
      · rw [hi, Nat.and_pow_two_sub_one_eq_mod, Nat.mod_self]
    rw [Map.slotIndex, if_pos hp]
  · intro hkk
    rw [hkk]
  · rw [Map.get, hmod]

/-- Witness for C9 on a concrete map with 4 shards (a power of two) and
identity hashing, at key 3. -/
theorem routing_deterministic_witness :
    Map.slotIndex (⟨4, by decide, id, fun _ => []⟩ : Map Nat Nat) 3
        = finalize 3 % 4
    ∧ Map.slotIndex (⟨4, by decide, id, fun _ => []⟩ : Map Nat Nat) 3
        = finalize 3 &&& 3
    ∧ Map.slotIndex (⟨4, by decide, id, fun _ => []⟩ : Map Nat Nat) 3
        = Map.slotIndex (⟨4, by decide, id, fun _ => []⟩ : Map Nat Nat) 3 :=
  ⟨(routing_deterministic (⟨4, by decide, id, fun _ => []⟩ : Map Nat Nat)
      3 3).1,
   (routing_deterministic (⟨4, by decide, id, fun _ => []⟩ : Map Nat Nat)
      3 3).2.1 ⟨2, rfl⟩,
   (routing_deterministic (⟨4, by decide, id, fun _ => []⟩ : Map Nat Nat)
      3 3).2.2.1 rfl⟩

end Routing

end HashMap5V
